import Mathlib

/-!
# Signet — verification of the authorization pipeline

A shallow embedding of the Signet remote-signing daemon's data model and of
the operations its specification describes: the ACL evaluator
(`src/apps/signet/src/daemon/lib/acl.ts`), the NIP-46 backends
(`subscription-manager.ts` second document, and the NDK `BunkerBackend`),
the repositories (key rename, pending requests), the connection-token
services, the key vault service, and the subscription manager's
heartbeat/restart state machine.

Database tables are embedded as lists of record rows; Prisma's
`findUnique`/`findFirst` become `List.find?` (the relevant columns carry
unique indexes, or the source's semantics is "first match"), and
`updateMany`/`deleteMany` become maps/filters over the row list.  Nullable
columns are `Option`s.  Timestamps are `Int` milliseconds.  JavaScript
exceptions become `Except`/explicit error results that also return the
state at the point of the throw.
-/

namespace Signet

/-! ## Data model (§3 of the spec, Prisma schema) -/

/-- A `KeyUser` row: the join of (key-name, remote-public-key).
The `suspendedAt`/`suspendUntil` columns are declared by the repository's
API types (`signet-types/src/api/apps.ts`) and by the spec's data model;
they are carried here so that theorems can talk about suspended rows. -/
structure KeyUserRow where
  id : Nat
  keyName : String
  userPubkey : String
  description : Option String
  trustLevel : Option String
  createdAt : Int
  lastUsedAt : Option Int
  revokedAt : Option Int
  suspendedAt : Option Int
  suspendUntil : Option Int
  deriving Repr, DecidableEq

/-- A `SigningCondition` row: explicit ACL rule attached to a KeyUser. -/
structure SigningConditionRow where
  keyUserId : Nat
  method : String
  kind : Option String
  allowed : Option Bool
  deriving Repr, DecidableEq

/-- A `Request` row: record of one inbound NIP-46 call. -/
structure RequestRow where
  id : String
  keyName : Option String
  method : String
  remotePubkey : String
  params : Option String
  allowed : Option Bool
  createdAt : Int
  processedAt : Option Int
  deriving Repr, DecidableEq

/-- A policy rule attached to a `Token` (method plus optional kind). -/
structure PolicyRule where
  method : String
  kind : Option Int
  deriving Repr, DecidableEq

/-- A `Token` row (preconfigured permission bundle presented at `connect`). -/
structure TokenRecord where
  id : Nat
  token : String
  keyName : String
  clientName : Option String
  expiresAt : Option Int
  redeemedAt : Option Int
  keyUserId : Option Nat
  policy : Option (List PolicyRule)
  deriving Repr, DecidableEq

/-- A `ConnectionToken` row (one-shot secret bound to a key-name). -/
structure ConnectionTokenRecord where
  id : Nat
  keyName : String
  token : String
  expiresAt : Int
  redeemedAt : Option Int
  deriving Repr, DecidableEq

/-- A `Key` row (name plus derived public key). -/
structure KeyRow where
  keyName : String
  pubkey : String
  deriving Repr, DecidableEq

/-- The SQL store: one list per table, plus the id Prisma would assign to
the next created `KeyUser` row. -/
structure Db where
  keyUsers : List KeyUserRow
  signingConditions : List SigningConditionRow
  requests : List RequestRow
  tokens : List TokenRecord
  connectionTokens : List ConnectionTokenRecord
  keys : List KeyRow
  nextKeyUserId : Nat
  deriving Repr, DecidableEq

/-- `prisma.keyUser.findUnique({where: {unique_key_user: {keyName, userPubkey}}})`:
the pair carries a unique index, so the first match is the only match. -/
def findKeyUser (db : Db) (keyName remotePubkey : String) : Option KeyUserRow :=
  db.keyUsers.find? (fun r => r.keyName == keyName && r.userPubkey == remotePubkey)

/-! ## ACL evaluator (`daemon/lib/acl.ts`) -/

/-- `SAFE_KINDS` from acl.ts. -/
def SAFE_KINDS : List Int :=
  [1, 6, 7, 16, 1111, 30023, 30024, 1808, 9735, 10000, 10001, 30000, 30001, 24242]

/-- `SENSITIVE_KINDS` from acl.ts. -/
def SENSITIVE_KINDS : List Int :=
  [0, 3, 4, 5, 10002, 22242, 24133, 13194, 23194, 23195]

/-- `isKindSafe` from acl.ts: sensitive kinds are never safe; otherwise only
explicitly safe kinds are safe. -/
def isKindSafe (kind : Int) : Bool :=
  if SENSITIVE_KINDS.contains kind then false
  else SAFE_KINDS.contains kind

/-- The payload argument of the evaluator, abstracted to the result of
acl.ts `extractKind`: either a payload from which a numeric event kind
decodes, a payload from which none decodes, or no payload at all.
(`extractKind` JSON-parses string payloads and reads `kind` fields of
event objects; both failure modes end in `undefined`.) -/
inductive Payload where
  | absent
  | withKind (k : Int)
  | withoutKind
  deriving Repr, DecidableEq

/-- `extractKind` from acl.ts, over the abstracted payload. -/
def extractKind : Payload → Option Int
  | .absent => none
  | .withKind k => some k
  | .withoutKind => none

/-- The condition query built by acl.ts `buildConditionQuery`: a method,
plus (for `sign_event` only) a set of admissible `kind` strings. -/
structure SigningConditionQuery where
  method : String
  kind : Option (List String)
  deriving Repr, DecidableEq

/-- `buildConditionQuery` from acl.ts: non-`sign_event` methods match on the
method alone; `sign_event` matches rows whose kind is `'all'` or the decoded
kind's string form. -/
def buildConditionQuery (method : String) (payload : Payload) : SigningConditionQuery :=
  if method != "sign_event" then
    { method := method, kind := none }
  else
    let kinds :=
      match extractKind payload with
      | some k => ["all", toString k]
      | none => ["all"]
    { method := method, kind := some kinds }

/-- Prisma row matching for the query built above.  A `kind: {in: ks}`
constraint does not match rows whose `kind` column is NULL. -/
def conditionMatches (q : SigningConditionQuery) (keyUserId : Nat)
    (c : SigningConditionRow) : Bool :=
  c.keyUserId == keyUserId && c.method == q.method &&
    (match q.kind with
     | none => true
     | some ks =>
       match c.kind with
       | none => false
       | some k => ks.contains k)

/-- The explicit global deny check of acl.ts: a condition with
`method='*'` and `allowed=false`. -/
def isGlobalDeny (keyUserId : Nat) (c : SigningConditionRow) : Bool :=
  c.keyUserId == keyUserId && c.method == "*" && c.allowed == some false

/-- `shouldAutoApproveByTrustLevel` from acl.ts.  Any trust level other
than `paranoid` and `full` takes the `reasonable` branch, as in the source. -/
def shouldAutoApproveByTrustLevel (trustLevel : String) (method : String)
    (payload : Payload) : Bool :=
  if trustLevel == "paranoid" then false
  else if trustLevel == "full" then true
  else if method == "connect" then true
  else if method == "ping" then true
  else if method == "encrypt" || method == "decrypt" then false
  else if method == "sign_event" then
    match extractKind payload with
    | none => false
    | some kind => isKindSafe kind
  else false

/-- The tail of `isRequestPermitted` shared by the cache-hit and
database-fetch paths: look up an explicit method/kind condition (its
`allowed` value decides when it is a real boolean), otherwise consult the
trust level.  The best-effort `lastUsedAt` touch is fire-and-forget in the
source and does not affect the decision. -/
def decideByConditions (db : Db) (keyUserId : Nat) (trustLevel : String)
    (method : String) (payload : Payload) : Option Bool :=
  let query := buildConditionQuery method payload
  match db.signingConditions.find? (conditionMatches query keyUserId) with
  | some c =>
    match c.allowed with
    | some b => some b
    | none =>
      if shouldAutoApproveByTrustLevel trustLevel method payload then some true else none
  | none =>
    if shouldAutoApproveByTrustLevel trustLevel method payload then some true else none

/-- The `CacheEntry.keyUser` summary stored by the ACL cache (acl.ts lines
11–19): only id, revoked-at and trust level. -/
structure CachedKeyUser where
  id : Nat
  revokedAt : Option Int
  trustLevel : Option String
  deriving Repr, DecidableEq

/-- An ACL cache entry: KeyUser summary plus the "has explicit global deny"
boolean.  (The TTL timestamp is consumed by `getCachedEntry`, which is
abstracted into the `Option CacheEntry` argument below.) -/
structure CacheEntry where
  keyUser : CachedKeyUser
  hasExplicitDeny : Bool
  deriving Repr, DecidableEq

/-- The cache-hit path of `isRequestPermitted`. -/
def isRequestPermittedCached (entry : CacheEntry) (db : Db)
    (method : String) (payload : Payload) : Option Bool :=
  if entry.keyUser.revokedAt.isSome then some false
  else if entry.hasExplicitDeny then some false
  else
    decideByConditions db entry.keyUser.id (entry.keyUser.trustLevel.getD "reasonable")
      method payload

/-- The database-fetch path of `isRequestPermitted`: `findUnique` the
KeyUser (selecting id, revokedAt, trustLevel only), return `Undecided` when
missing, `Denied` when revoked or an explicit global deny exists. -/
def isRequestPermittedFetch (db : Db) (keyName remotePubkey : String)
    (method : String) (payload : Payload) : Option Bool :=
  match findKeyUser db keyName remotePubkey with
  | none => none
  | some keyUser =>
    if keyUser.revokedAt.isSome then some false
    else if (db.signingConditions.find? (isGlobalDeny keyUser.id)).isSome then some false
    else
      decideByConditions db keyUser.id (keyUser.trustLevel.getD "reasonable") method payload

/-- `isRequestPermitted` from acl.ts: `some true` = Permitted, `some false`
= Denied, `none` = Undecided.  `cached` is the result of `getCachedEntry`
(`some` on a cache hit within TTL, `none` otherwise). -/
def isRequestPermitted (cached : Option CacheEntry) (db : Db)
    (keyName remotePubkey : String) (method : String) (payload : Payload) :
    Option Bool :=
  match cached with
  | some entry => isRequestPermittedCached entry db method payload
  | none => isRequestPermittedFetch db keyName remotePubkey method payload

/-! ## Theorems about the ACL evaluator -/

/-- A KeyUser row that is suspended indefinitely (suspend-until null) but
not revoked, at trust level `full`. -/
def suspendedAliceRow : KeyUserRow :=
  { id := 1, keyName := "alice", userPubkey := "clientpk", description := none,
    trustLevel := some "full", createdAt := 0, lastUsedAt := none,
    revokedAt := none, suspendedAt := some 1000, suspendUntil := none }

/-- A database holding only `suspendedAliceRow` and no signing conditions. -/
def suspendedFullTrustDb : Db :=
  { keyUsers := [suspendedAliceRow], signingConditions := [], requests := [],
    tokens := [], connectionTokens := [], keys := [], nextKeyUserId := 2 }

/-- The ACL cache entry that `setCachedEntry` would store for
`suspendedAliceRow` (the summary holds only id, revokedAt, trustLevel). -/
def suspendedFullTrustEntry : CacheEntry :=
  { keyUser := { id := 1, revokedAt := none, trustLevel := some "full" },
    hasExplicitDeny := false }

/-- C1 counterexample.  The stored KeyUser for `("alice", "clientpk")` has
`suspended_at` set and `suspend_until` null, yet `isRequestPermitted`
returns Permitted (`some true`), not Denied (`some false`), on the
database-fetch path and on the cache-hit path alike: the evaluator never
reads the suspension columns (its DB select and its `CacheEntry` carry only
id, revokedAt and trustLevel). -/
theorem isRequestPermitted_suspension_counterexample :
    (findKeyUser suspendedFullTrustDb "alice" "clientpk" = some suspendedAliceRow ∧
      suspendedAliceRow.suspendedAt = some 1000 ∧
      suspendedAliceRow.suspendUntil = none ∧
      suspendedAliceRow.revokedAt = none) ∧
    isRequestPermitted none suspendedFullTrustDb "alice" "clientpk" "ping"
      .absent = some true ∧
    isRequestPermitted (some suspendedFullTrustEntry) suspendedFullTrustDb
      "alice" "clientpk" "ping" .absent = some true := by
  decide

/-- Rewriting of a KeyUser row's suspension fields by arbitrary functions. -/
def rewriteSuspension (f g : KeyUserRow → Option Int) (r : KeyUserRow) : KeyUserRow :=
  { r with suspendedAt := f r, suspendUntil := g r }

/-- The database with every KeyUser row's suspension fields rewritten. -/
def mapSuspension (db : Db) (f g : KeyUserRow → Option Int) : Db :=
  { db with keyUsers := db.keyUsers.map (rewriteSuspension f g) }

/-- C1 as amended: `isRequestPermitted` does not consult `suspended_at` or
`suspend_until` at all — rewriting the suspension fields of every KeyUser
row arbitrarily leaves its decision unchanged, on both the cache-hit and
the database-fetch path.  (In particular a suspended KeyUser is evaluated
exactly as if it were not suspended: it is Denied only when revoked or
explicitly denied, regardless of the suspension columns.) -/
theorem isRequestPermitted_ignores_suspension (cached : Option CacheEntry) (db : Db)
    (f g : KeyUserRow → Option Int) (keyName remotePubkey method : String)
    (payload : Payload) :
    isRequestPermitted cached (mapSuspension db f g) keyName remotePubkey
      method payload
      = isRequestPermitted cached db keyName remotePubkey method payload := by
  cases cached with
  | some entry => rfl
  | none =>
    show isRequestPermittedFetch _ _ _ _ _ = isRequestPermittedFetch _ _ _ _ _
    unfold isRequestPermittedFetch findKeyUser mapSuspension
    rw [List.find?_map]
    have hcomp : ((fun r => r.keyName == keyName && r.userPubkey == remotePubkey) ∘
        rewriteSuspension f g)
        = (fun r : KeyUserRow => r.keyName == keyName && r.userPubkey == remotePubkey) :=
      rfl
    rw [hcomp]
    cases db.keyUsers.find?
        (fun r => r.keyName == keyName && r.userPubkey == remotePubkey) with
    | none => rfl
    | some ku => rfl

/-- The spec's description of the `reasonable`-trust decision (§8,
"Reasonable trust"): permitted iff the method is `ping` or `connect`, or
the method is `sign_event` and the decoded kind is in the SAFE set and not
in the SENSITIVE set. -/
def ReasonablePermits (method : String) (payload : Payload) : Prop :=
  method = "ping" ∨ method = "connect" ∨
    (method = "sign_event" ∧ ∃ k, extractKind payload = some k ∧
      k ∈ SAFE_KINDS ∧ k ∉ SENSITIVE_KINDS)

/-- `isKindSafe` agrees with the spec's "in SAFE and not in SENSITIVE". -/
theorem isKindSafe_iff (k : Int) :
    isKindSafe k = true ↔ k ∈ SAFE_KINDS ∧ k ∉ SENSITIVE_KINDS := by
  unfold isKindSafe
  by_cases h : k ∈ SENSITIVE_KINDS
  · have hc : SENSITIVE_KINDS.contains k = true := by simpa [List.contains] using h
    simp [hc, h]
  · have hc : SENSITIVE_KINDS.contains k = false := by simpa [List.contains] using h
    simp [hc, h, List.contains]

/-- The code's trust-level default for `reasonable` agrees with the spec's
characterization, for every method string and payload. -/
theorem shouldAutoApprove_reasonable_iff (method : String) (payload : Payload) :
    shouldAutoApproveByTrustLevel "reasonable" method payload = true ↔
      ReasonablePermits method payload := by
  unfold shouldAutoApproveByTrustLevel ReasonablePermits
  by_cases h1 : method = "connect"
  · subst h1; simp
  by_cases h2 : method = "ping"
  · subst h2; simp
  by_cases h3 : method = "encrypt"
  · subst h3; simp
  by_cases h4 : method = "decrypt"
  · subst h4; simp
  by_cases h5 : method = "sign_event"
  · subst h5
    cases payload with
    | absent => simp [extractKind]
    | withoutKind => simp [extractKind]
    | withKind k => simp [extractKind, isKindSafe_iff k]
  · simp [h1, h2, h3, h4, h5]

/-- C3: when no explicit SigningCondition of the KeyUser matches (neither
the global `method='*'` deny nor the method/kind query) and the trust level
is `reasonable` (and the KeyUser is present and not revoked), the evaluator
returns Permitted exactly on `ping`, `connect`, and `sign_event` of a
SAFE-but-not-SENSITIVE kind; it never returns Denied; and it returns
Undecided in every other case (including `encrypt`/`decrypt`, unknown
kinds, and payloads from which no kind can be decoded). -/
theorem reasonable_trust_decision (db : Db) (ku : KeyUserRow)
    (keyName remotePubkey method : String) (payload : Payload)
    (hku : findKeyUser db keyName remotePubkey = some ku)
    (hrev : ku.revokedAt = none)
    (htl : ku.trustLevel = some "reasonable")
    (hnd : ∀ c ∈ db.signingConditions, isGlobalDeny ku.id c = false)
    (hnq : ∀ c ∈ db.signingConditions,
      conditionMatches (buildConditionQuery method payload) ku.id c = false) :
    (isRequestPermittedFetch db keyName remotePubkey method payload = some true ↔
      ReasonablePermits method payload) ∧
    isRequestPermittedFetch db keyName remotePubkey method payload ≠ some false ∧
    (isRequestPermittedFetch db keyName remotePubkey method payload = none ↔
      ¬ ReasonablePermits method payload) := by
  have hfd : db.signingConditions.find? (isGlobalDeny ku.id) = none :=
    List.find?_eq_none.mpr (fun c hc => by simp [hnd c hc])
  have hfq : db.signingConditions.find?
      (conditionMatches (buildConditionQuery method payload) ku.id) = none :=
    List.find?_eq_none.mpr (fun c hc => by simp [hnq c hc])
  have key : isRequestPermittedFetch db keyName remotePubkey method payload
      = if shouldAutoApproveByTrustLevel "reasonable" method payload then some true
        else none := by
    unfold isRequestPermittedFetch decideByConditions
    rw [hku]
    dsimp only
    rw [hrev, hfd, hfq, htl]
    rfl
  rw [key]
  cases h : shouldAutoApproveByTrustLevel "reasonable" method payload with
  | true =>
    have hrp := (shouldAutoApprove_reasonable_iff method payload).mp h
    simp [hrp]
  | false =>
    have hrp : ¬ ReasonablePermits method payload := fun hc => by
      rw [(shouldAutoApprove_reasonable_iff method payload).mpr hc] at h
      exact Bool.true_eq_false.mp h
    simp [hrp]

/-- A `reasonable`-trust KeyUser with no conditions, for the C3 witness. -/
def reasonableAliceRow : KeyUserRow :=
  { id := 7, keyName := "alice", userPubkey := "clientpk", description := none,
    trustLevel := some "reasonable", createdAt := 0, lastUsedAt := none,
    revokedAt := none, suspendedAt := none, suspendUntil := none }

/-- A database holding only `reasonableAliceRow`. -/
def reasonableDb : Db :=
  { keyUsers := [reasonableAliceRow], signingConditions := [], requests := [],
    tokens := [], connectionTokens := [], keys := [], nextKeyUserId := 8 }

/-- Witness for C3 at a concrete input: one `reasonable` KeyUser, no
conditions, a `sign_event` for kind 1 (SAFE, not SENSITIVE) — Permitted. -/
theorem reasonable_trust_decision_witness :
    isRequestPermittedFetch reasonableDb "alice" "clientpk" "sign_event"
      (.withKind 1) = some true :=
  (reasonable_trust_decision reasonableDb reasonableAliceRow "alice" "clientpk"
      "sign_event" (.withKind 1) (by decide) rfl rfl
      (fun c hc => by simp [reasonableDb] at hc)
      (fun c hc => by simp [reasonableDb] at hc)).1.mpr
    (Or.inr (Or.inr ⟨rfl, 1, rfl, by decide, by decide⟩))

/-! ## NIP-46 connect handling (`subscription-manager.ts` second document,
and the NDK `BunkerBackend`) -/

/-- A NIP-46 response event's decrypted content: `{id, result}` on success,
`{id, result:"error", error}` on error. -/
inductive OutboundResponse where
  | ok (id : String) (result : String)
  | err (id : String) (error : String)
  deriving Repr, DecidableEq

/-- JS `String.prototype.trim`: strip leading and trailing whitespace
(modelled over the character list so that it is kernel-executable). -/
def jsTrim (s : String) : String :=
  ⟨((s.data.dropWhile Char.isWhitespace).reverse.dropWhile Char.isWhitespace).reverse⟩

/-- JS `String.prototype.toLowerCase` over the character list. -/
def jsToLower (s : String) : String :=
  ⟨s.data.map Char.toLower⟩

/-- The `.trim().toLowerCase()` normalization both backends apply to the
client-supplied and configured admin secrets. -/
def normalizeSecret (s : String) : String :=
  jsToLower (jsTrim s)

/-- JS falsiness of an optional string: `undefined` or the empty string. -/
def isFalsyStr : Option String → Bool
  | none => true
  | some s => s == ""

/-- Outcome of `Nip46Backend.handleConnect`: the string result `'ack'`, the
`undefined` result, or a thrown error. -/
inductive ConnectOutcome where
  | ack
  | noResult
  | thrown (msg : String)
  deriving Repr, DecidableEq

namespace Nip46Backend

/-- `Nip46Backend.handleConnect` (subscription-manager.ts second document).
`permitted` abstracts the awaited `permitCallback` result on the fall-
through paths; `createError` abstracts whether `createKeyUserForConnect`
throws (the thrown message) or succeeds (`none`).  The byte-length
pre-check plus `crypto.timingSafeEqual` amount to string equality of the
normalized secrets. -/
def handleConnect (adminSecret : Option String) (params : List String)
    (permitted : Bool) (createError : Option String) : ConnectOutcome :=
  let providedSecret := (params.get? 1).map normalizeSecret
  let expectedSecret := adminSecret.map normalizeSecret
  if isFalsyStr expectedSecret then
    if permitted then .ack else .noResult
  else if isFalsyStr providedSecret then
    if permitted then .ack else .noResult
  else
    let p := providedSecret.getD ""
    let e := expectedSecret.getD ""
    if p.length == e.length && p == e then
      match createError with
      | none => .ack
      | some msg => .thrown msg
    else
      .noResult

/-- The response events `Nip46Backend.handleEvent` publishes for a
verified, decrypted `connect` request: `handleMethod` routes `connect` to
`handleConnect`; a defined result is sent as a success response, an
`undefined` result becomes the error reply "Not authorized", and a thrown
error becomes an error reply carrying its message. -/
def handleEventConnect (adminSecret : Option String) (id : String)
    (params : List String) (permitted : Bool) (createError : Option String) :
    List OutboundResponse :=
  match handleConnect adminSecret params permitted createError with
  | .ack => [.ok id "ack"]
  | .noResult => [.err id "Not authorized"]
  | .thrown msg => [.err id msg]

end Nip46Backend

namespace BunkerBackend

/-- Result shape of `BunkerBackend.handleConnect` (part_014):
`{handled, response?, error?}`. -/
inductive ConnectResult where
  | notHandled
  | handledSilent
  | handledAck
  | handledError (msg : String)
  deriving Repr, DecidableEq

/-- `BunkerBackend.handleConnect`: falls through (`handled:false`) when no
admin secret is configured or the request carries none; silently handles a
mismatched secret (`handled:true` with neither response nor error);
auto-approves on a match. -/
def handleConnect (adminSecret : Option String) (params : List String)
    (createError : Option String) : ConnectResult :=
  let providedSecret := (params.get? 1).map normalizeSecret
  let expectedSecret := adminSecret.map normalizeSecret
  if isFalsyStr expectedSecret then .notHandled
  else if isFalsyStr providedSecret then .notHandled
  else if providedSecret.getD "" == expectedSecret.getD "" then
    match createError with
    | none => .handledAck
    | some msg => .handledError msg
  else .handledSilent

/-- The responses `BunkerBackend.handleIncomingEvent` publishes for a
`connect` request that the secret-validation path handles; `none` means
the request falls through to the normal permit-callback flow. -/
def handleIncomingEventConnect (adminSecret : Option String) (id : String)
    (params : List String) (createError : Option String) :
    Option (List OutboundResponse) :=
  match handleConnect adminSecret params createError with
  | .notHandled => none
  | .handledSilent => some []
  | .handledAck => some [.ok id "ack"]
  | .handledError msg => some [.err id msg]

end BunkerBackend

/-- C2 (code bug).  For a `connect` whose second parameter is non-empty
after normalization and differs from the configured admin secret, the
`Nip46Backend` of subscription-manager.ts — despite its own comment
"Silent rejection - no response sent" — publishes an outbound error reply
"Not authorized", because `handleEvent` converts the `undefined` result of
`handleConnect` into `sendError(id, remotePubkey, 'Not authorized')`.  The
NDK `BunkerBackend` implements the claimed behavior: it publishes nothing
for the same input. -/
theorem connect_bad_secret_not_silent :
    (normalizeSecret "wrong" ≠ "" ∧
      normalizeSecret "wrong" ≠ normalizeSecret "s3cret") ∧
    Nip46Backend.handleEventConnect (some "s3cret") "req1" ["targetpk", "wrong"]
      true none = [OutboundResponse.err "req1" "Not authorized"] ∧
    BunkerBackend.handleIncomingEventConnect (some "s3cret") "req1"
      ["targetpk", "wrong"] none = some [] := by
  decide

/-! ## Token redemption (`Nip46Backend.applyToken`, and the
`ConnectionTokenService`) -/

/-- The `findUnique({where: {token}})` predicate (the column is unique). -/
def tokenByStr (tok : String) (t : TokenRecord) : Bool :=
  t.token == tok

namespace Nip46Backend

/-- `Nip46Backend.fetchTokenRecord`: fetch and validate a `Token` row.
Does not claim it — redemption is the caller's conditional update. -/
def fetchTokenRecord (db : Db) (token : String) (now : Int) :
    Except String TokenRecord :=
  match db.tokens.find? (tokenByStr token) with
  | none => .error "Token not found"
  | some record =>
    if record.redeemedAt.isSome then .error "Token already redeemed"
    else if record.policy.isNone then .error "Token policy missing"
    else
      match record.expiresAt with
      | some exp => if exp < now then .error "Token expired" else .ok record
      | none => .ok record

/-- Row effect of the atomic claim on one `Token` row: rows matching
`{id, redeemedAt: null}` get `redeemedAt` set; other rows are untouched. -/
def claimUpd (tokenId : Nat) (now : Int) (t : TokenRecord) : TokenRecord :=
  if t.id == tokenId && t.redeemedAt.isNone then { t with redeemedAt := some now } else t

/-- `prisma.token.updateMany({where: {id, redeemedAt: null}, data:
{redeemedAt: now}})`: the atomic claim.  Returns the affected-row count and
the updated table. -/
def claimToken (db : Db) (tokenId : Nat) (now : Int) : Nat × Db :=
  ((db.tokens.filter (fun t => t.id == tokenId && t.redeemedAt.isNone)).length,
    { db with tokens := db.tokens.map (claimUpd tokenId now) })

/-- `prisma.keyUser.upsert` with an empty `update` clause, as in
`applyToken`: an existing row is returned untouched; a missing row is
created with the token's client name (trust level takes the schema default
`'reasonable'`). -/
def upsertKeyUserForToken (db : Db) (keyName userPubkey : String)
    (clientName : Option String) (now : Int) : Nat × Db :=
  match findKeyUser db keyName userPubkey with
  | some ku => (ku.id, db)
  | none =>
    let kuId := db.nextKeyUserId
    let row : KeyUserRow :=
      { id := kuId, keyName := keyName, userPubkey := userPubkey,
        description := clientName, trustLevel := some "reasonable",
        createdAt := now, lastUsedAt := none, revokedAt := none,
        suspendedAt := none, suspendUntil := none }
    (kuId, { db with keyUsers := db.keyUsers ++ [row], nextKeyUserId := kuId + 1 })

/-- Row effect of linking a `Token` row to a KeyUser. -/
def linkUpd (tokenId : Nat) (kuId : Option Nat) (t : TokenRecord) : TokenRecord :=
  if t.id == tokenId then { t with keyUserId := kuId } else t

/-- `prisma.token.update({where: {id}, data: {keyUserId}})`. -/
def setTokenKeyUser (db : Db) (tokenId : Nat) (kuId : Option Nat) : Db :=
  { db with tokens := db.tokens.map (linkUpd tokenId kuId) }

/-- `prisma.signingCondition.create`. -/
def addSigningCondition (db : Db) (c : SigningConditionRow) : Db :=
  { db with signingConditions := db.signingConditions ++ [c] }

/-- Row effect of the catch handler: reset `redeemedAt` and `keyUserId`. -/
def unclaimUpd (tokenId : Nat) (t : TokenRecord) : TokenRecord :=
  if t.id == tokenId then { t with redeemedAt := none, keyUserId := none } else t

/-- The catch handler of `applyToken`: un-claim the token so that it can be
retried (`data: {redeemedAt: null, keyUserId: null}`). -/
def unclaimToken (db : Db) (tokenId : Nat) : Db :=
  { db with tokens := db.tokens.map (unclaimUpd tokenId) }

/-- Result of `applyToken`: the thrown error message (if any) and the
database at the point of return/throw. -/
structure ApplyTokenResult where
  error? : Option String
  db : Db
  deriving Repr, DecidableEq

/-- `Nip46Backend.applyToken`: validate, atomically claim, then materialize
permissions.  `rulesFail` abstracts a database failure inside the
permission-materialization block (the `try`); when it hits, the catch
handler un-claims the token and rethrows. -/
def applyToken (db : Db) (remotePubkey token : String) (now : Int)
    (rulesFail : Bool) : ApplyTokenResult :=
  match fetchTokenRecord db token now with
  | .error e => ⟨some e, db⟩
  | .ok record =>
    let claimed := claimToken db record.id now
    if claimed.1 == 0 then ⟨some "Token already redeemed", claimed.2⟩
    else
      let up := upsertKeyUserForToken claimed.2 record.keyName remotePubkey
        record.clientName now
      let db3 := setTokenKeyUser up.2 record.id (some up.1)
      let db4 := addSigningCondition db3 ⟨up.1, "connect", none, some true⟩
      if rulesFail then
        ⟨some "rule materialization failed", unclaimToken db4 record.id⟩
      else
        ⟨none, (record.policy.getD []).foldl
          (fun d rule => addSigningCondition d
            ⟨up.1, rule.method, rule.kind.map toString, some true⟩) db4⟩

end Nip46Backend

namespace Nip46Backend

theorem claimUpd_token (tokenId : Nat) (now : Int) (t : TokenRecord) :
    (claimUpd tokenId now t).token = t.token := by
  unfold claimUpd
  by_cases h : (t.id == tokenId && t.redeemedAt.isNone) = true <;> simp [h]

theorem linkUpd_token (tokenId : Nat) (kuId : Option Nat) (t : TokenRecord) :
    (linkUpd tokenId kuId t).token = t.token := by
  unfold linkUpd
  by_cases h : (t.id == tokenId) = true <;> simp [h]

theorem unclaimUpd_token (tokenId : Nat) (t : TokenRecord) :
    (unclaimUpd tokenId t).token = t.token := by
  unfold unclaimUpd
  by_cases h : (t.id == tokenId) = true <;> simp [h]

/-- `find?` by token string commutes with any row update that preserves the
token string. -/
theorem find?_tokenByStr_map (l : List TokenRecord) (tok : String)
    (u : TokenRecord → TokenRecord) (hu : ∀ t, (u t).token = t.token) :
    (l.map u).find? (tokenByStr tok) = (l.find? (tokenByStr tok)).map u := by
  have hcomp : tokenByStr tok ∘ u = tokenByStr tok := by
    funext t
    simp [Function.comp, tokenByStr, hu t]
  rw [List.find?_map, hcomp]

theorem fetchTokenRecord_ok (db : Db) (tok : String) (now : Int) (r : TokenRecord)
    (h : fetchTokenRecord db tok now = .ok r) :
    db.tokens.find? (tokenByStr tok) = some r ∧ r.redeemedAt = none := by
  unfold fetchTokenRecord at h
  split at h
  · cases h
  · rename_i record hf
    split at h
    · cases h
    · rename_i hred
      split at h
      · cases h
      · split at h
        · split at h
          · cases h
          · cases h
            exact ⟨hf, Option.not_isSome_iff_eq_none.mp (by simpa using hred)⟩
        · cases h
          exact ⟨hf, Option.not_isSome_iff_eq_none.mp (by simpa using hred)⟩

theorem claimToken_count_pos (db : Db) (r : TokenRecord) (now : Int)
    (hr : r ∈ db.tokens) (hred : r.redeemedAt = none) :
    (claimToken db r.id now).1 ≠ 0 := by
  intro h0
  have hmem : r ∈ db.tokens.filter (fun t => t.id == r.id && t.redeemedAt.isNone) :=
    List.mem_filter.mpr ⟨hr, by simp [hred]⟩
  have h0' : (db.tokens.filter
      (fun t => t.id == r.id && t.redeemedAt.isNone)).length = 0 := h0
  rw [List.length_eq_zero] at h0'
  rw [h0'] at hmem
  exact List.not_mem_nil r hmem

theorem upsertKeyUserForToken_tokens (db : Db) (kn pk : String)
    (cn : Option String) (now : Int) :
    (upsertKeyUserForToken db kn pk cn now).2.tokens = db.tokens := by
  unfold upsertKeyUserForToken
  cases findKeyUser db kn pk <;> rfl

theorem foldlAddCond_tokens (rules : List PolicyRule) (d : Db) (kuId : Nat) :
    (rules.foldl (fun d' rule => addSigningCondition d'
      ⟨kuId, rule.method, rule.kind.map toString, some true⟩) d).tokens
      = d.tokens := by
  induction rules generalizing d with
  | nil => rfl
  | cons a as ih => simpa using ih (addSigningCondition d ⟨kuId, a.method, a.kind.map toString, some true⟩)

/-- `fetchTokenRecord` rejects a token whose row is already redeemed. -/
theorem fetchTokenRecord_redeemed (db : Db) (tok : String) (now : Int)
    (r : TokenRecord) (hfind : db.tokens.find? (tokenByStr tok) = some r)
    (hsome : r.redeemedAt.isSome = true) :
    fetchTokenRecord db tok now = .error "Token already redeemed" := by
  unfold fetchTokenRecord
  rw [hfind]
  simp [hsome]

/-- `applyToken` surfaces a fetch-validation error unchanged. -/
theorem applyToken_error_of_fetch_error (db : Db) (pk tok : String) (now : Int)
    (fail : Bool) (e : String)
    (hf : fetchTokenRecord db tok now = .error e) :
    (applyToken db pk tok now fail).error? = some e := by
  unfold applyToken
  rw [hf]

theorem addSigningCondition_tokens (d : Db) (c : SigningConditionRow) :
    (addSigningCondition d c).tokens = d.tokens := rfl

theorem setTokenKeyUser_tokens (d : Db) (tid : Nat) (k : Option Nat) :
    (setTokenKeyUser d tid k).tokens = d.tokens.map (linkUpd tid k) := rfl

theorem claimToken_tokens (d : Db) (tid : Nat) (now : Int) :
    (claimToken d tid now).2.tokens = d.tokens.map (claimUpd tid now) := rfl

theorem unclaimToken_tokens (d : Db) (tid : Nat) :
    (unclaimToken d tid).tokens = d.tokens.map (unclaimUpd tid) := rfl

/-- Shape of a successful `applyToken` run: no error, and the token table
is the original one with the claimed row marked and linked. -/
theorem applyToken_ok_shape (db : Db) (pk tok : String) (t1 : Int) (r : TokenRecord)
    (hf : fetchTokenRecord db tok t1 = .ok r) :
    (applyToken db pk tok t1 false).error? = none ∧
    ∃ kuId : Nat, (applyToken db pk tok t1 false).db.tokens
      = (db.tokens.map (claimUpd r.id t1)).map (linkUpd r.id (some kuId)) := by
  obtain ⟨hfind, hred⟩ := fetchTokenRecord_ok db tok t1 r hf
  have hrmem := List.mem_of_find?_eq_some hfind
  have hcount := claimToken_count_pos db r t1 hrmem hred
  have hbeq : ((claimToken db r.id t1).1 == 0) = false := by
    simpa using hcount
  unfold applyToken
  simp only [hf, hbeq, Bool.false_eq_true, if_false, reduceIte]
  constructor
  · trivial
  · refine ⟨(upsertKeyUserForToken (claimToken db r.id t1).2 r.keyName pk
      r.clientName t1).1, ?_⟩
    simp only [foldlAddCond_tokens, addSigningCondition_tokens,
      setTokenKeyUser_tokens, upsertKeyUserForToken_tokens, claimToken_tokens]

/-- Shape of an `applyToken` run whose permission materialization fails:
the catch handler un-claims the token. -/
theorem applyToken_fail_shape (db : Db) (pk tok : String) (t1 : Int) (r : TokenRecord)
    (hf : fetchTokenRecord db tok t1 = .ok r) :
    (applyToken db pk tok t1 true).error? = some "rule materialization failed" ∧
    ∃ kuId : Nat, (applyToken db pk tok t1 true).db.tokens
      = ((db.tokens.map (claimUpd r.id t1)).map
          (linkUpd r.id (some kuId))).map (unclaimUpd r.id) := by
  obtain ⟨hfind, hred⟩ := fetchTokenRecord_ok db tok t1 r hf
  have hrmem := List.mem_of_find?_eq_some hfind
  have hcount := claimToken_count_pos db r t1 hrmem hred
  have hbeq : ((claimToken db r.id t1).1 == 0) = false := by
    simpa using hcount
  unfold applyToken
  simp only [hf, hbeq, Bool.false_eq_true, if_false, reduceIte]
  constructor
  · trivial
  · refine ⟨(upsertKeyUserForToken (claimToken db r.id t1).2 r.keyName pk
      r.clientName t1).1, ?_⟩
    simp only [unclaimToken_tokens, foldlAddCond_tokens, addSigningCondition_tokens,
      setTokenKeyUser_tokens, upsertKeyUserForToken_tokens, claimToken_tokens]

end Nip46Backend

/-- C4: token redemption.  (i) After a successful `applyToken`, any second
attempt for the same token string fails with "Token already redeemed" — the
claim is marked by the conditional update guarded by `redeemedAt IS NULL`,
so it can succeed at most once.  (ii) If permission materialization fails
after a successful claim, the final state has the token's `redeemedAt` and
`keyUserId` reset to null, so the token can be retried.  (iii) The claim
step only ever rewrites rows whose `redeemedAt` was null (every row of the
updated table is an original row, or an originally-unredeemed row now
marked redeemed). -/
theorem applyToken_once_and_rollback (db : Db) (pk pk2 tok : String) (t1 t2 : Int)
    (fail2 : Bool)
    (hs : (Nip46Backend.applyToken db pk tok t1 false).error? = none) :
    ((Nip46Backend.applyToken (Nip46Backend.applyToken db pk tok t1 false).db
        pk2 tok t2 fail2).error? = some "Token already redeemed")
    ∧ (∀ r', (Nip46Backend.applyToken db pk tok t1 true).db.tokens.find?
        (tokenByStr tok) = some r' → r'.redeemedAt = none ∧ r'.keyUserId = none)
    ∧ (∀ d : Db, ∀ tid : Nat, ∀ t : Int,
        ∀ r' ∈ (Nip46Backend.claimToken d tid t).2.tokens,
        r' ∈ d.tokens ∨ ∃ r ∈ d.tokens, r.redeemedAt = none ∧
          r' = { r with redeemedAt := some t }) := by
  cases hf : Nip46Backend.fetchTokenRecord db tok t1 with
  | error e =>
    unfold Nip46Backend.applyToken at hs
    rw [hf] at hs
    cases hs
  | ok r =>
    obtain ⟨hfind, hred⟩ := Nip46Backend.fetchTokenRecord_ok db tok t1 r hf
    refine ⟨?_, ?_, ?_⟩
    · -- (i) the second attempt fails
      obtain ⟨-, kuId, htoks⟩ := Nip46Backend.applyToken_ok_shape db pk tok t1 r hf
      have hfind2 : (Nip46Backend.applyToken db pk tok t1 false).db.tokens.find?
          (tokenByStr tok)
          = some (Nip46Backend.linkUpd r.id (some kuId)
              (Nip46Backend.claimUpd r.id t1 r)) := by
        rw [htoks,
          Nip46Backend.find?_tokenByStr_map _ _ _ (Nip46Backend.linkUpd_token r.id (some kuId)),
          Nip46Backend.find?_tokenByStr_map _ _ _ (Nip46Backend.claimUpd_token r.id t1),
          hfind]
        rfl
      have hsome : (Nip46Backend.linkUpd r.id (some kuId)
          (Nip46Backend.claimUpd r.id t1 r)).redeemedAt.isSome = true := by
        unfold Nip46Backend.claimUpd Nip46Backend.linkUpd
        simp [hred]
      exact Nip46Backend.applyToken_error_of_fetch_error _ pk2 tok t2 fail2 _
        (Nip46Backend.fetchTokenRecord_redeemed _ tok t2 _ hfind2 hsome)
    · -- (ii) the failed run leaves the token un-claimed
      intro r' hr'
      obtain ⟨-, kuId, htoks⟩ := Nip46Backend.applyToken_fail_shape db pk tok t1 r hf
      rw [htoks,
        Nip46Backend.find?_tokenByStr_map _ _ _ (Nip46Backend.unclaimUpd_token r.id),
        Nip46Backend.find?_tokenByStr_map _ _ _ (Nip46Backend.linkUpd_token r.id (some kuId)),
        Nip46Backend.find?_tokenByStr_map _ _ _ (Nip46Backend.claimUpd_token r.id t1),
        hfind] at hr'
      have : r' = Nip46Backend.unclaimUpd r.id (Nip46Backend.linkUpd r.id (some kuId)
          (Nip46Backend.claimUpd r.id t1 r)) := by
        simpa using hr'.symm
      subst this
      unfold Nip46Backend.unclaimUpd Nip46Backend.linkUpd Nip46Backend.claimUpd
      simp [hred]
    · -- (iii) the claim only rewrites unredeemed rows
      intro d tid t r' hr'
      have hmem : r' ∈ d.tokens.map (Nip46Backend.claimUpd tid t) := hr'
      obtain ⟨r0, hr0, hupd⟩ := List.mem_map.mp hmem
      by_cases hc : (r0.id == tid && r0.redeemedAt.isNone) = true
      · right
        refine ⟨r0, hr0, ?_, ?_⟩
        · have hand := (Bool.and_eq_true _ _).mp hc
          exact Option.isNone_iff_eq_none.mp hand.2
        · rw [← hupd]
          unfold Nip46Backend.claimUpd
          simp [hc]
      · left
        rw [← hupd]
        unfold Nip46Backend.claimUpd
        simp only [hc, if_false, Bool.false_eq_true]
        exact hr0


/-- A database holding a single unexpired, unredeemed token with an empty
policy rule set, for the C4 witness. -/
def tokenAliceRow : TokenRecord :=
  { id := 1, token := "tok", keyName := "alice", clientName := none,
    expiresAt := none, redeemedAt := none, keyUserId := none, policy := some [] }

def tokenDb : Db :=
  { keyUsers := [], signingConditions := [], requests := [], tokens := [tokenAliceRow],
    connectionTokens := [], keys := [], nextKeyUserId := 1 }

/-- Witness for C4 at a concrete input: the first redemption succeeds, the
second fails with "Token already redeemed". -/
theorem applyToken_once_and_rollback_witness :
    (Nip46Backend.applyToken tokenDb "pk" "tok" 5 false).error? = none ∧
    (Nip46Backend.applyToken (Nip46Backend.applyToken tokenDb "pk" "tok" 5 false).db
      "pk" "tok" 9 false).error? = some "Token already redeemed" :=
  ⟨by decide, (applyToken_once_and_rollback tokenDb "pk" "pk" "tok" 5 9 false (by decide)).1⟩

/-! ## Pending-request queue: batch approval (part_016) and the
`RequestRepository` (part_019) -/

/-- One entry of the batch route's `results` array (id omitted: the step
below is the per-id body). -/
structure BatchResult where
  success : Bool
  error : Option String
  deriving Repr, DecidableEq

/-- `prisma.request.findUnique({where: {id}})` (the id column is unique). -/
def findRequest (reqs : List RequestRow) (id : String) : Option RequestRow :=
  reqs.find? (fun r => r.id == id)

/-- Row effect of `prisma.request.update({where: {id}, data: {allowed:
true, processedAt: now}})`. -/
def approveUpd (id : String) (now : Int) (r : RequestRow) : RequestRow :=
  if r.id == id then { r with allowed := some true, processedAt := some now } else r

/-- The per-id body of the batch-approval loop (part_016, `POST
/requests/batch`): find the record; report "Request not found" or "Request
already processed" without touching the table; otherwise set
`allowed=true, processedAt=now`.  The subsequent permission-granting and
logging steps touch other tables only. -/
def approveRequestBatchStep (reqs : List RequestRow) (id : String) (now : Int) :
    BatchResult × List RequestRow :=
  match findRequest reqs id with
  | none => (⟨false, some "Request not found"⟩, reqs)
  | some record =>
    if record.allowed.isSome then (⟨false, some "Request already processed"⟩, reqs)
    else (⟨true, none⟩, reqs.map (approveUpd record.id now))

/-- C5: at most one decision per request id.  If the found record's
`allowed` is already non-null, the batch approval returns the
"Request already processed" error and leaves the whole request table
(including `allowed` and `processed_at` of every row) unchanged; only a
record whose `allowed` is still null is updated to `allowed=true` with
`processed_at` set, rows with other ids staying untouched. -/
theorem approve_already_processed (reqs : List RequestRow) (id : String)
    (now : Int) (record : RequestRow)
    (hfind : findRequest reqs id = some record) :
    (record.allowed ≠ none →
      (approveRequestBatchStep reqs id now).1
          = ⟨false, some "Request already processed"⟩ ∧
      (approveRequestBatchStep reqs id now).2 = reqs) ∧
    (record.allowed = none →
      (approveRequestBatchStep reqs id now).1 = ⟨true, none⟩ ∧
      (approveRequestBatchStep reqs id now).2 = reqs.map (approveUpd record.id now) ∧
      (∀ r ∈ reqs, (r.id == record.id) = false →
        r ∈ (approveRequestBatchStep reqs id now).2)) := by
  unfold approveRequestBatchStep
  rw [hfind]
  constructor
  · intro hne
    have hsome : record.allowed.isSome = true := Option.isSome_iff_ne_none.mpr hne
    simp [hsome]
  · intro heq
    have hnone : record.allowed.isSome = false := by simp [heq]
    simp only [hnone, Bool.false_eq_true, if_false]
    refine ⟨by trivial, by trivial, ?_⟩
    intro r hr hne
    have : approveUpd record.id now r = r := by
      unfold approveUpd
      simp [hne]
    exact this ▸ List.mem_map_of_mem (approveUpd record.id now) hr

/-- A pending request for the C5 witness. -/
def pendingReq : RequestRow :=
  { id := "r1", keyName := some "alice", method := "sign_event",
    remotePubkey := "clientpk", params := none, allowed := none,
    createdAt := 0, processedAt := none }

/-- `pendingReq` after its approval at time 50. -/
def processedReq : RequestRow :=
  { pendingReq with allowed := some true, processedAt := some 50 }

/-- Witness for C5: approving a second time after a first successful
approval yields "Request already processed". -/
theorem approve_already_processed_witness :
    (approveRequestBatchStep
      (approveRequestBatchStep [pendingReq] "r1" 50).2 "r1" 60).1
      = ⟨false, some "Request already processed"⟩ :=
  ((approve_already_processed (approveRequestBatchStep [pendingReq] "r1" 50).2
      "r1" 60 processedReq (by decide)).1 (by decide)).1

namespace RequestRepository

/-- `REQUEST_TTL_MS` of part_019's `RequestRepository` (equal to
`REQUEST_EXPIRY_MS` in constants.ts): 60 000 ms. -/
def REQUEST_TTL_MS : Int := 60000

/-- The Prisma `where` clause of `findMany` for a given status, as a row
predicate over `expiryThreshold = now − TTL`: `approved` → `allowed =
true`; `expired` → `allowed IS NULL AND createdAt < threshold`; anything
else (`pending`) → `allowed IS NULL AND createdAt >= threshold`.  (The
route then orders by `createdAt desc` and paginates, which does not change
membership.) -/
def statusWhere (status : String) (now : Int) (r : RequestRow) : Bool :=
  if status == "approved" then r.allowed == some true
  else if status == "expired" then
    r.allowed.isNone && decide (r.createdAt < now - REQUEST_TTL_MS)
  else
    r.allowed.isNone && decide (now - REQUEST_TTL_MS ≤ r.createdAt)

/-- The `cleanupExpired` predicate: `allowed IS NULL AND createdAt <
maxAge`. -/
def cleanupHit (maxAge : Int) (r : RequestRow) : Bool :=
  r.allowed.isNone && decide (r.createdAt < maxAge)

/-- `RequestRepository.cleanupExpired`: `deleteMany` returns the count of
deleted rows and the surviving table. -/
def cleanupExpired (reqs : List RequestRow) (maxAge : Int) : Nat × List RequestRow :=
  ((reqs.filter (cleanupHit maxAge)).length,
    reqs.filter (fun r => !cleanupHit maxAge r))

end RequestRepository

/-- C6: status classification and cleanup.  A row is classified `expired`
exactly when `allowed` is null and `created_at` is strictly older than 60 s
before `now`; `pending` exactly when `allowed` is null and `created_at` is
within the last 60 s; `approved` exactly when `allowed` is true.  And a row
survives `cleanupExpired` exactly when it is not (pending-null and older
than the cutoff) — so cleanup deletes only such rows. -/
theorem request_status_classification (r : RequestRow) (now maxAge : Int)
    (reqs : List RequestRow) :
    (RequestRepository.statusWhere "expired" now r = true ↔
      r.allowed = none ∧ r.createdAt < now - 60000) ∧
    (RequestRepository.statusWhere "pending" now r = true ↔
      r.allowed = none ∧ now - 60000 ≤ r.createdAt) ∧
    (RequestRepository.statusWhere "approved" now r = true ↔
      r.allowed = some true) ∧
    (∀ d ∈ reqs, d ∈ (RequestRepository.cleanupExpired reqs maxAge).2 ↔
      ¬(d.allowed = none ∧ d.createdAt < maxAge)) ∧
    (RequestRepository.cleanupExpired reqs maxAge).1
      = (reqs.filter (RequestRepository.cleanupHit maxAge)).length := by
  refine ⟨?_, ?_, ?_, ?_, rfl⟩
  · simp [RequestRepository.statusWhere, RequestRepository.REQUEST_TTL_MS,
      Option.isNone_iff_eq_none]
  · simp [RequestRepository.statusWhere, RequestRepository.REQUEST_TTL_MS,
      Option.isNone_iff_eq_none]
  · simp [RequestRepository.statusWhere]
  · intro d hd
    unfold RequestRepository.cleanupExpired
    constructor
    · intro hmem hprop
      have hhit : RequestRepository.cleanupHit maxAge d = true := by
        simp [RequestRepository.cleanupHit, hprop.1, hprop.2]
      have := (List.mem_filter.mp hmem).2
      rw [hhit] at this
      cases this
    · intro hprop
      refine List.mem_filter.mpr ⟨hd, ?_⟩
      have hhit : RequestRepository.cleanupHit maxAge d = false := by
        unfold RequestRepository.cleanupHit
        rcases Option.eq_none_or_eq_some d.allowed with hn | ⟨v, hv⟩
        · have hlt : ¬(d.createdAt < maxAge) := fun hlt => hprop ⟨hn, hlt⟩
          simp [hn, hlt]
        · simp [hv]
      simp [hhit]

/-- Witness for C6 at concrete rows: a null-allowed row 61 s old is
`expired` and not `pending`; a just-created null row is `pending`. -/
theorem request_status_classification_witness :
    RequestRepository.statusWhere "expired" 100000 pendingReq = true ∧
    RequestRepository.statusWhere "pending" 50000 pendingReq = true :=
  ⟨(request_status_classification pendingReq 100000 0 []).1.mpr
      ⟨rfl, by decide⟩,
    (request_status_classification pendingReq 50000 0 []).2.1.mpr
      ⟨rfl, by decide⟩⟩

/-! ## Key vault (`daemon/services/key-service.ts`) -/

/-- Modelled from the spec: the `{iv, data}` envelope produced by
`config/keyring.js encryptSecret` (keyring.js is not under src/).  §4.1:
AES-256-GCM under a PBKDF2-derived wrap key; unwrapping fails with
`InvalidPassphrase` on tag mismatch, i.e. unless the passphrase is the one
that wrapped the secret.  The envelope is modelled as the wrapped secret
together with its wrapping passphrase. -/
structure EncryptedSecret where
  secret : String
  passphrase : String
  deriving Repr, DecidableEq

/-- Modelled from the spec: `config/keyring.js decryptSecret` — yields the
wrapped secret when the passphrase matches and fails otherwise. -/
def decryptSecret (e : EncryptedSecret) (pass : String) : Option String :=
  if pass == e.passphrase then some e.secret else none

/-- A `StoredKey` of the JSON config file: plain (`key`) or encrypted
(`{iv, data}`, modelled by `enc`). -/
structure StoredKey where
  key : Option String
  enc : Option EncryptedSecret
  deriving Repr, DecidableEq

/-- The state `KeyService.deleteKey` touches: the on-disk config file's key
map, the in-memory `allKeys` mirror, the in-memory `activeKeys` map, and
the database. -/
structure KeyServiceState where
  configKeys : List (String × StoredKey)
  allKeys : List (String × StoredKey)
  activeKeys : List (String × String)
  db : Db
  deriving Repr, DecidableEq

/-- JS object property lookup over the key map. -/
def lookupKey (l : List (String × StoredKey)) (name : String) : Option StoredKey :=
  (l.find? (fun p => p.1 == name)).map (fun p => p.2)

/-- Modelled from the spec: `AppRepository.revokeByKeyName` (the repository
file is not under src/; only its caller `KeyService.deleteKey` is).  §4.2's
`delete` returns the "number of revoked KeyUsers", which §8 scenario 1
fixes to the number of prior KeyUsers of the key: it sets `revokedAt` on
every not-yet-revoked KeyUser of the key and returns how many. -/
def revokeByKeyName (db : Db) (keyName : String) (now : Int) : Nat × Db :=
  let hit := fun r : KeyUserRow => r.keyName == keyName && r.revokedAt.isNone
  let revoked := db.keyUsers.map
    (fun r => if hit r then { r with revokedAt := some now } else r)
  ((db.keyUsers.filter hit).length, { db with keyUsers := revoked })

namespace KeyService

/-- The mutation block of `deleteKey` (entered only after all checks
pass): revoke the key's apps, drop the key from the config file and both
in-memory maps, return the revoked count. -/
def deleteKeyCommit (st : KeyServiceState) (keyName : String) (now : Int) :
    Except String Nat × KeyServiceState :=
  let rv := revokeByKeyName st.db keyName now
  let st' : KeyServiceState :=
    { configKeys := st.configKeys.filter (fun p => p.1 != keyName),
      allKeys := st.allKeys.filter (fun p => p.1 != keyName),
      activeKeys := st.activeKeys.filter (fun p => p.1 != keyName),
      db := rv.2 }
  (.ok rv.1, st')

/-- `KeyService.deleteKey`: missing key, missing passphrase (for an
encrypted record) and wrong passphrase all throw before any mutation; a
successful delete commits. -/
def deleteKey (st : KeyServiceState) (keyName : String)
    (passphrase : Option String) (now : Int) :
    Except String Nat × KeyServiceState :=
  match lookupKey st.allKeys keyName with
  | none => (.error "Key not found", st)
  | some record =>
    match record.enc with
    | none => deleteKeyCommit st keyName now
    | some e =>
      match passphrase with
      | none => (.error "Passphrase required to delete encrypted key", st)
      | some pass =>
        match decryptSecret e pass with
        | none => (.error "Invalid passphrase", st)
        | some _ => deleteKeyCommit st keyName now

end KeyService

/-- C7: deleting an encrypted key.  Without a passphrase the delete fails
with the passphrase-required error and the whole state (config file,
in-memory maps, database) is untouched; with a passphrase that does not
decrypt the stored material it fails with "Invalid passphrase", equally
without any mutation; with the right passphrase it returns the number of
KeyUsers revoked for that key (the key's not-yet-revoked KeyUsers). -/
theorem deleteKey_passphrase_checks (st : KeyServiceState) (keyName : String)
    (record : StoredKey) (e : EncryptedSecret) (now : Int)
    (hlk : lookupKey st.allKeys keyName = some record)
    (henc : record.enc = some e) :
    KeyService.deleteKey st keyName none now
        = (.error "Passphrase required to delete encrypted key", st) ∧
    (∀ pass, pass ≠ e.passphrase →
      KeyService.deleteKey st keyName (some pass) now
        = (.error "Invalid passphrase", st)) ∧
    (KeyService.deleteKey st keyName (some e.passphrase) now).1
        = .ok ((st.db.keyUsers.filter
            (fun r => r.keyName == keyName && r.revokedAt.isNone)).length) := by
  unfold KeyService.deleteKey
  simp only [hlk, henc]
  refine ⟨by trivial, ?_, ?_⟩
  · intro pass hne
    have : decryptSecret e pass = none := by
      unfold decryptSecret
      simp [hne]
    simp only [this]
  · have : decryptSecret e e.passphrase = some e.secret := by
      unfold decryptSecret
      simp
    simp only [this]
    rfl

/-- Concrete state for the C7 witness: one encrypted key `alice` wrapped
with passphrase `hunter2`, one non-revoked KeyUser. -/
def aliceStored : StoredKey :=
  { key := none, enc := some { secret := "nsec1alice", passphrase := "hunter2" } }

def aliceVault : KeyServiceState :=
  { configKeys := [("alice", aliceStored)], allKeys := [("alice", aliceStored)],
    activeKeys := [], db := reasonableDb }

/-- Witness for C7: wrong passphrase fails without mutation; the right one
reports one revoked KeyUser. -/
theorem deleteKey_passphrase_checks_witness :
    KeyService.deleteKey aliceVault "alice" (some "wrong") 9
        = (.error "Invalid passphrase", aliceVault) ∧
    (KeyService.deleteKey aliceVault "alice" (some "hunter2") 9).1 = .ok 1 :=
  ⟨((deleteKey_passphrase_checks aliceVault "alice" aliceStored
        { secret := "nsec1alice", passphrase := "hunter2" } 9 (by decide) rfl).2.1
      "wrong" (by decide)),
    (deleteKey_passphrase_checks aliceVault "alice" aliceStored
        { secret := "nsec1alice", passphrase := "hunter2" } 9 (by decide) rfl).2.2⟩

/-! ## Key rename (`KeyRepository.renameKey`, part_019) -/

namespace KeyRepository

/-- `updateMany({where: {keyName: old}, data: {keyName: new}})` on KeyUser. -/
def renameKeyUserUpd (o n : String) (r : KeyUserRow) : KeyUserRow :=
  if r.keyName == o then { r with keyName := n } else r

/-- The same update on Request (whose `keyName` is nullable; NULL does not
match the `where`). -/
def renameRequestUpd (o n : String) (r : RequestRow) : RequestRow :=
  if r.keyName == some o then { r with keyName := some n } else r

/-- The same update on Token. -/
def renameTokenUpd (o n : String) (t : TokenRecord) : TokenRecord :=
  if t.keyName == o then { t with keyName := n } else t

/-- The same update on Key. -/
def renameKeyRowUpd (o n : String) (k : KeyRow) : KeyRow :=
  if k.keyName == o then { k with keyName := n } else k

/-- `KeyRepository.renameKey`: a single `prisma.$transaction` holding four
`updateMany` calls (KeyUser, Request, Token, Key).  The embedding performs
the transaction as one atomic step on the store: all four tables change
together and no intermediate state exists. -/
def renameKey (db : Db) (o n : String) : Db :=
  let kus := db.keyUsers.map (renameKeyUserUpd o n)
  let rqs := db.requests.map (renameRequestUpd o n)
  let tks := db.tokens.map (renameTokenUpd o n)
  let kys := db.keys.map (renameKeyRowUpd o n)
  { db with keyUsers := kus, requests := rqs, tokens := tks, keys := kys }

/-- After the KeyUser update no row bears the old name (names distinct). -/
theorem renameKeyUserUpd_ne (o n : String) (hne : o ≠ n) (r : KeyUserRow) :
    (renameKeyUserUpd o n r).keyName ≠ o := by
  unfold renameKeyUserUpd
  by_cases hc : (r.keyName == o) = true
  · simp only [hc, if_true]
    exact fun h => hne h.symm
  · simp only [hc, Bool.false_eq_true, if_false]
    simpa using hc

theorem renameRequestUpd_ne (o n : String) (hne : o ≠ n) (r : RequestRow) :
    (renameRequestUpd o n r).keyName ≠ some o := by
  unfold renameRequestUpd
  by_cases hc : (r.keyName == some o) = true
  · simp only [hc, if_true]
    intro h
    exact hne (Option.some_inj.mp h).symm
  · simp only [hc, Bool.false_eq_true, if_false]
    simpa using hc

theorem renameTokenUpd_ne (o n : String) (hne : o ≠ n) (t : TokenRecord) :
    (renameTokenUpd o n t).keyName ≠ o := by
  unfold renameTokenUpd
  by_cases hc : (t.keyName == o) = true
  · simp only [hc, if_true]
    exact fun h => hne h.symm
  · simp only [hc, Bool.false_eq_true, if_false]
    simpa using hc

theorem renameKeyRowUpd_ne (o n : String) (hne : o ≠ n) (k : KeyRow) :
    (renameKeyRowUpd o n k).keyName ≠ o := by
  unfold renameKeyRowUpd
  by_cases hc : (k.keyName == o) = true
  · simp only [hc, if_true]
    exact fun h => hne h.symm
  · simp only [hc, Bool.false_eq_true, if_false]
    simpa using hc

end KeyRepository

/-- C8: renaming a key rewrites, in the one transaction, every KeyUser,
Request, Token and Key row bearing the old name to the new name (each
per-table update touching exactly the rows with the old name), leaves the
other tables untouched, and afterwards — when the names differ — no row of
any of the four tables bears the old name. -/
theorem renameKey_renames_all_tables (db : Db) (o n : String) :
    ((KeyRepository.renameKey db o n).keyUsers
        = db.keyUsers.map (KeyRepository.renameKeyUserUpd o n) ∧
      (KeyRepository.renameKey db o n).requests
        = db.requests.map (KeyRepository.renameRequestUpd o n) ∧
      (KeyRepository.renameKey db o n).tokens
        = db.tokens.map (KeyRepository.renameTokenUpd o n) ∧
      (KeyRepository.renameKey db o n).keys
        = db.keys.map (KeyRepository.renameKeyRowUpd o n)) ∧
    ((KeyRepository.renameKey db o n).signingConditions = db.signingConditions ∧
      (KeyRepository.renameKey db o n).connectionTokens = db.connectionTokens ∧
      (KeyRepository.renameKey db o n).nextKeyUserId = db.nextKeyUserId) ∧
    (o ≠ n →
      ((KeyRepository.renameKey db o n).keyUsers.all
          (fun r => r.keyName != o)) = true ∧
      ((KeyRepository.renameKey db o n).requests.all
          (fun r => r.keyName != some o)) = true ∧
      ((KeyRepository.renameKey db o n).tokens.all
          (fun t => t.keyName != o)) = true ∧
      ((KeyRepository.renameKey db o n).keys.all
          (fun k => k.keyName != o)) = true) := by
  refine ⟨⟨rfl, rfl, rfl, rfl⟩, ⟨rfl, rfl, rfl⟩, ?_⟩
  intro hne
  refine ⟨?_, ?_, ?_, ?_⟩
  · rw [List.all_eq_true]
    intro r hr
    obtain ⟨r0, hr0, hupd⟩ := List.mem_map.mp hr
    subst hupd
    simpa using KeyRepository.renameKeyUserUpd_ne o n hne r0
  · rw [List.all_eq_true]
    intro r hr
    obtain ⟨r0, hr0, hupd⟩ := List.mem_map.mp hr
    subst hupd
    simpa using KeyRepository.renameRequestUpd_ne o n hne r0
  · rw [List.all_eq_true]
    intro r hr
    obtain ⟨r0, hr0, hupd⟩ := List.mem_map.mp hr
    subst hupd
    simpa using KeyRepository.renameTokenUpd_ne o n hne r0
  · rw [List.all_eq_true]
    intro r hr
    obtain ⟨r0, hr0, hupd⟩ := List.mem_map.mp hr
    subst hupd
    simpa using KeyRepository.renameKeyRowUpd_ne o n hne r0

/-- Concrete store for the C8 witness: one row with the old name in each
of the four tables. -/
def renameDb : Db :=
  { keyUsers := [reasonableAliceRow], signingConditions := [],
    requests := [pendingReq], tokens := [tokenAliceRow], connectionTokens := [],
    keys := [{ keyName := "alice", pubkey := "pk" }], nextKeyUserId := 9 }

/-- Witness for C8: after renaming `alice` to `bob`, no table row bears
`alice`. -/
theorem renameKey_renames_all_tables_witness :
    ((KeyRepository.renameKey renameDb "alice" "bob").keyUsers.all
        (fun r => r.keyName != "alice")) = true ∧
    ((KeyRepository.renameKey renameDb "alice" "bob").requests.all
        (fun r => r.keyName != some "alice")) = true ∧
    ((KeyRepository.renameKey renameDb "alice" "bob").tokens.all
        (fun t => t.keyName != "alice")) = true ∧
    ((KeyRepository.renameKey renameDb "alice" "bob").keys.all
        (fun k => k.keyName != "alice")) = true :=
  (renameKey_renames_all_tables renameDb "alice" "bob").2.2 (by decide)

/-! ## Subscription manager (`daemon/lib/subscription-manager.ts` first
document): heartbeat, sleep detection, debounced restart -/

namespace SubscriptionManager

/-- `HEARTBEAT_INTERVAL_MS` (default heartbeat interval). -/
def HEARTBEAT_INTERVAL_MS : Int := 60 * 1000

/-- `SLEEP_DETECTION_THRESHOLD_MS = HEARTBEAT_INTERVAL_MS * 3`. -/
def SLEEP_DETECTION_THRESHOLD_MS : Int := HEARTBEAT_INTERVAL_MS * 3

/-- `RESTART_DEBOUNCE_MS`. -/
def RESTART_DEBOUNCE_MS : Int := 2000

/-- A managed subscription's stored triple.  Filters and callbacks are
opaque handles. -/
structure ManagedSub where
  id : String
  filterId : Nat
  onEventId : Nat
  deriving Repr, DecidableEq

/-- Externally visible actions of the manager, recorded as a trace:
closing a subscription, the 500 ms settle pause, recreating a
subscription on the pool, and running a ping health check. -/
inductive SMAction where
  | closeSub (id : String)
  | wait (ms : Nat)
  | createSub (id : String) (filterId onEventId : Nat)
  | healthCheck
  deriving Repr, DecidableEq

/-- Manager state: the insertion-ordered subscription map, the last
heartbeat tick, the debounce flag/timer, and the action trace. -/
structure SMState where
  subs : List ManagedSub
  lastHeartbeat : Int
  pendingRestart : Bool
  restartTimerAt : Option Int
  trace : List SMAction
  deriving Repr, DecidableEq

/-- `scheduleRestart`: if a restart is already pending the trigger is
ignored (bursts coalesce); otherwise arm the 2 s debounce timer. -/
def scheduleRestart (st : SMState) (now : Int) : SMState :=
  if st.pendingRestart then st
  else { st with pendingRestart := true,
                 restartTimerAt := some (now + RESTART_DEBOUNCE_MS) }

/-- `doRestartSubscriptions`: collect every managed `(id, filter,
onEvent)` triple, close all subscriptions, wait 500 ms, recreate each from
its collected triple (map insertion order preserved). -/
def doRestartSubscriptions (st : SMState) : SMState :=
  if st.subs.isEmpty then st
  else
    let toRestart := st.subs.map (fun m => (m.id, m.filterId, m.onEventId))
    let closes := st.subs.map (fun m => SMAction.closeSub m.id)
    let creates := toRestart.map (fun p => SMAction.createSub p.1 p.2.1 p.2.2)
    { st with subs := toRestart.map (fun p => ⟨p.1, p.2.1, p.2.2⟩),
              trace := st.trace ++ closes ++ [SMAction.wait 500] ++ creates }

/-- The debounce timer firing: clear the timer and the pending flag, then
restart. -/
def fireRestartTimer (st : SMState) : SMState :=
  doRestartSubscriptions
    { st with pendingRestart := false, restartTimerAt := none }

/-- `runHeartbeat`: advance `lastHeartbeat`; when the elapsed time exceeds
the sleep threshold schedule a debounced restart, otherwise run the ping
health check (abstracted to a trace action). -/
def runHeartbeat (st : SMState) (now : Int) : SMState :=
  let elapsed := now - st.lastHeartbeat
  let st' := { st with lastHeartbeat := now }
  if elapsed > SLEEP_DETECTION_THRESHOLD_MS then
    scheduleRestart st' now
  else
    { st' with trace := st'.trace ++ [SMAction.healthCheck] }

end SubscriptionManager

/-- C9: sleep detection and the debounced restart.  When the elapsed time
between two heartbeat ticks exceeds 3× the heartbeat interval, the
heartbeat schedules the 2 s-debounced restart (and touches neither the
subscription set nor the trace); while a restart is pending, further
triggers are ignored, so per burst the restart runs exactly once; the
restart closes every managed subscription, waits 500 ms, and recreates
each one with its original (id, filter, onEvent) triple, leaving the list
of managed subscriptions unchanged. -/
theorem sleep_restart_debounced (st : SubscriptionManager.SMState)
    (now t2 : Int)
    (hjump : now - st.lastHeartbeat > 3 * SubscriptionManager.HEARTBEAT_INTERVAL_MS)
    (hnp : st.pendingRestart = false) :
    ((SubscriptionManager.runHeartbeat st now).pendingRestart = true ∧
      (SubscriptionManager.runHeartbeat st now).restartTimerAt
        = some (now + 2000) ∧
      (SubscriptionManager.runHeartbeat st now).subs = st.subs ∧
      (SubscriptionManager.runHeartbeat st now).trace = st.trace) ∧
    (∀ st' : SubscriptionManager.SMState, st'.pendingRestart = true →
      SubscriptionManager.scheduleRestart st' t2 = st') ∧
    (∀ st' : SubscriptionManager.SMState,
      (SubscriptionManager.fireRestartTimer st').subs = st'.subs ∧
      (SubscriptionManager.fireRestartTimer st').pendingRestart = false ∧
      (SubscriptionManager.fireRestartTimer st').trace = st'.trace ++
        (if st'.subs.isEmpty then [] else
          st'.subs.map (fun m => SubscriptionManager.SMAction.closeSub m.id)
            ++ [SubscriptionManager.SMAction.wait 500]
            ++ st'.subs.map (fun m =>
                SubscriptionManager.SMAction.createSub m.id m.filterId m.onEventId))) := by
  have hthr : SubscriptionManager.SLEEP_DETECTION_THRESHOLD_MS
      = 3 * SubscriptionManager.HEARTBEAT_INTERVAL_MS := by decide
  have heta : (fun p : String × Nat × Nat =>
      (⟨p.1, p.2.1, p.2.2⟩ : SubscriptionManager.ManagedSub))
      ∘ (fun m : SubscriptionManager.ManagedSub => (m.id, m.filterId, m.onEventId))
      = id := rfl
  refine ⟨?_, ?_, ?_⟩
  · unfold SubscriptionManager.runHeartbeat SubscriptionManager.scheduleRestart
    rw [if_pos (hthr ▸ hjump)]
    simp [hnp, SubscriptionManager.RESTART_DEBOUNCE_MS]
  · intro st' hp
    unfold SubscriptionManager.scheduleRestart
    rw [if_pos hp]
  · intro st'
    unfold SubscriptionManager.fireRestartTimer SubscriptionManager.doRestartSubscriptions
    by_cases he : st'.subs.isEmpty
    · simp [he]
    · simp only [he, Bool.false_eq_true, if_false]
      refine ⟨?_, by trivial, ?_⟩
      · show (st'.subs.map _).map _ = st'.subs
        rw [List.map_map, heta, List.map_id]
      · simp only [List.map_map]
        simp [he]

/-- Concrete state for the C9 witness: one managed NIP-46 subscription,
last heartbeat at 0, a tick at 200 000 ms (beyond the 180 000 ms
threshold). -/
def smStart : SubscriptionManager.SMState :=
  { subs := [{ id := "nip46-alice", filterId := 1, onEventId := 2 }],
    lastHeartbeat := 0, pendingRestart := false, restartTimerAt := none,
    trace := [] }

/-- Witness for C9: the jump schedules the restart at 202 000 ms, and the
firing restart preserves the subscription list. -/
theorem sleep_restart_debounced_witness :
    (SubscriptionManager.runHeartbeat smStart 200000).restartTimerAt
      = some 202000 ∧
    (SubscriptionManager.fireRestartTimer
      (SubscriptionManager.runHeartbeat smStart 200000)).subs = smStart.subs :=
  ⟨(sleep_restart_debounced smStart 200000 0 (by decide) rfl).1.2.1,
    by
      rw [(sleep_restart_debounced smStart 200000 0 (by decide) rfl).2.2
        (SubscriptionManager.runHeartbeat smStart 200000) |>.1]
      exact (sleep_restart_debounced smStart 200000 0 (by decide) rfl).1.2.2.1⟩

/-! ## Connect-with-secret KeyUser upsert (`createKeyUserForConnect`,
identical logic in subscription-manager.ts's `Nip46Backend` and part_014's
`BunkerBackend`) -/

namespace Nip46Backend

/-- Row effect of the upsert's `update` clause: only `lastUsedAt` is set. -/
def touchUpd (kuId : Nat) (now : Int) (r : KeyUserRow) : KeyUserRow :=
  if r.id == kuId then { r with lastUsedAt := some now } else r

/-- The `findFirst({where: {keyUserId, method: 'connect'}})` plus the
conditional create: an allow-connect condition is inserted only when no
connect condition (of either polarity) exists for the KeyUser. -/
def ensureConnectCondition (db : Db) (kuId : Nat) : Db :=
  match db.signingConditions.find?
      (fun c => c.keyUserId == kuId && c.method == "connect") with
  | some _ => db
  | none => addSigningCondition db ⟨kuId, "connect", none, some true⟩

/-- `createKeyUserForConnect`: upsert the KeyUser — update only
`lastUsedAt` when the row exists; create it with `DEFAULT_TRUST_LEVEL =
'reasonable'` and the bunker-secret description when it does not — then
ensure a connect signing condition. -/
def createKeyUserForConnect (db : Db) (keyName remotePubkey : String)
    (now : Int) : Db :=
  match findKeyUser db keyName remotePubkey with
  | some ku =>
    ensureConnectCondition
      { db with keyUsers := db.keyUsers.map (touchUpd ku.id now) } ku.id
  | none =>
    let kuId := db.nextKeyUserId
    let row : KeyUserRow :=
      { id := kuId, keyName := keyName, userPubkey := remotePubkey,
        description := some "Auto-approved via bunker secret",
        trustLevel := some "reasonable", createdAt := now, lastUsedAt := none,
        revokedAt := none, suspendedAt := none, suspendUntil := none }
    ensureConnectCondition
      { db with keyUsers := db.keyUsers ++ [row], nextKeyUserId := kuId + 1 } kuId

theorem ensureConnectCondition_keyUsers (db : Db) (kuId : Nat) :
    (ensureConnectCondition db kuId).keyUsers = db.keyUsers := by
  unfold ensureConnectCondition
  split <;> rfl

/-- The row the upsert's `create` clause inserts. -/
def bunkerCreatedRow (db : Db) (kn pk : String) (t : Int) : KeyUserRow :=
  { id := db.nextKeyUserId, keyName := kn, userPubkey := pk,
    description := some "Auto-approved via bunker secret",
    trustLevel := some "reasonable", createdAt := t, lastUsedAt := none,
    revokedAt := none, suspendedAt := none, suspendUntil := none }

theorem touchUpd_frame (kuId : Nat) (now : Int) (r : KeyUserRow) :
    (touchUpd kuId now r).trustLevel = r.trustLevel ∧
    (touchUpd kuId now r).description = r.description ∧
    (touchUpd kuId now r).revokedAt = r.revokedAt ∧
    (touchUpd kuId now r).id = r.id ∧
    (touchUpd kuId now r).keyName = r.keyName ∧
    (touchUpd kuId now r).userPubkey = r.userPubkey := by
  unfold touchUpd
  by_cases hc : (r.id == kuId) = true <;> simp [hc]

end Nip46Backend

/-- C10: frame conditions of the connect-with-valid-secret upsert.  When a
KeyUser already exists for (key, remote pubkey): only `lastUsedAt` is
rewritten (trust level, description and revoked-at of every row are
preserved); no existing SigningCondition is modified — the table is either
unchanged (a connect condition already exists) or extended by exactly one
allow-connect row (none existed).  The `'reasonable'` default trust level
is applied only on first creation: when no KeyUser exists, the table is
extended by one freshly created row carrying it. -/
theorem connect_upsert_frame (db : Db) (keyName remotePubkey : String)
    (now : Int) (ku : KeyUserRow)
    (hku : findKeyUser db keyName remotePubkey = some ku) :
    ((Nip46Backend.createKeyUserForConnect db keyName remotePubkey now).keyUsers
        = db.keyUsers.map (Nip46Backend.touchUpd ku.id now) ∧
      ∀ r ∈ db.keyUsers, ∃ r' ∈ (Nip46Backend.createKeyUserForConnect db keyName
          remotePubkey now).keyUsers,
        r'.trustLevel = r.trustLevel ∧ r'.description = r.description ∧
        r'.revokedAt = r.revokedAt ∧ r'.id = r.id) ∧
    ((∃ c ∈ db.signingConditions, c.keyUserId = ku.id ∧ c.method = "connect") →
      (Nip46Backend.createKeyUserForConnect db keyName remotePubkey
          now).signingConditions = db.signingConditions) ∧
    ((∀ c ∈ db.signingConditions, ¬(c.keyUserId = ku.id ∧ c.method = "connect")) →
      (Nip46Backend.createKeyUserForConnect db keyName remotePubkey
          now).signingConditions
        = db.signingConditions ++ [⟨ku.id, "connect", none, some true⟩]) ∧
    (∀ db₀ : Db, ∀ kn pk : String, ∀ t : Int,
      findKeyUser db₀ kn pk = none →
      ∃ row : KeyUserRow,
        (Nip46Backend.createKeyUserForConnect db₀ kn pk t).keyUsers
          = db₀.keyUsers ++ [row] ∧
        row.trustLevel = some "reasonable" ∧ row.keyName = kn ∧
        row.userPubkey = pk) := by
  have hcond : ∀ d : Db, d.signingConditions = db.signingConditions →
      ∀ kuId, (Nip46Backend.ensureConnectCondition d kuId).keyUsers = d.keyUsers :=
    fun d _ kuId => Nip46Backend.ensureConnectCondition_keyUsers d kuId
  refine ⟨⟨?_, ?_⟩, ?_, ?_, ?_⟩
  · unfold Nip46Backend.createKeyUserForConnect
    rw [hku]
    exact Nip46Backend.ensureConnectCondition_keyUsers _ ku.id
  · intro r hr
    refine ⟨Nip46Backend.touchUpd ku.id now r, ?_, ?_⟩
    · have hmap : (Nip46Backend.createKeyUserForConnect db keyName remotePubkey
          now).keyUsers = db.keyUsers.map (Nip46Backend.touchUpd ku.id now) := by
        unfold Nip46Backend.createKeyUserForConnect
        rw [hku]
        exact Nip46Backend.ensureConnectCondition_keyUsers _ ku.id
      rw [hmap]
      exact List.mem_map_of_mem _ hr
    · obtain ⟨h1, h2, h3, h4, -, -⟩ := Nip46Backend.touchUpd_frame ku.id now r
      exact ⟨h1, h2, h3, h4⟩
  · intro ⟨c, hc, hcid, hcm⟩
    have hex : ∃ x, x ∈ db.signingConditions ∧
        (x.keyUserId == ku.id && x.method == "connect") = true :=
      ⟨c, hc, by simp [hcid, hcm]⟩
    obtain ⟨x, hfx⟩ := Option.isSome_iff_exists.mp (List.find?_isSome.mpr hex)
    unfold Nip46Backend.createKeyUserForConnect
    simp only [hku]
    unfold Nip46Backend.ensureConnectCondition
    dsimp only
    rw [hfx]
  · intro hnone
    have hfn : db.signingConditions.find?
        (fun c => c.keyUserId == ku.id && c.method == "connect") = none := by
      rw [List.find?_eq_none]
      intro c hc
      have hnc := hnone c hc
      simp only [Bool.and_eq_true, beq_iff_eq]
      exact fun hand => hnc ⟨hand.1, hand.2⟩
    unfold Nip46Backend.createKeyUserForConnect
    simp only [hku]
    unfold Nip46Backend.ensureConnectCondition
    dsimp only
    rw [hfn]
    rfl
  · intro db₀ kn pk t hku0
    unfold Nip46Backend.createKeyUserForConnect
    simp only [hku0]
    refine ⟨Nip46Backend.bunkerCreatedRow db₀ kn pk t, ?_, rfl, rfl, rfl⟩
    exact Nip46Backend.ensureConnectCondition_keyUsers _ _

/-- Concrete store for the C10 witness: the reasonable KeyUser with one
existing connect condition. -/
def connectDb : Db :=
  { reasonableDb with
      signingConditions := [⟨7, "connect", none, some true⟩] }

/-- Witness for C10: for an existing KeyUser with an existing connect
condition, the upsert leaves the condition table unchanged. -/
theorem connect_upsert_frame_witness :
    (Nip46Backend.createKeyUserForConnect connectDb "alice" "clientpk"
        42).signingConditions = connectDb.signingConditions :=
  (connect_upsert_frame connectDb "alice" "clientpk" 42 reasonableAliceRow
      (by decide)).2.1
    ⟨⟨7, "connect", none, some true⟩, by decide, rfl, rfl⟩

end Signet
